import Mathlib

/-!
Verification of the aion-country-explorer client core: the favorites store
with import and export (src/unnamed/part_005, a zustand store), the
filter-and-sort view over country records (src/unnamed/part_001), the
remote data client (src/unnamed/part_007) and the debounce hook
(src/src/hooks/useLocalStorage.ts, useDebounce section).

Modelling conventions:
- JavaScript execution is single threaded and every store action is a
  synchronous function from the current state to the next state, so each
  action is embedded as a pure function on an explicit state record.
- Date.now and new Date().toISOString() are environment inputs; they are
  passed as explicit arguments (now, exportedAt) to the actions that read
  them.
- JSON.parse output is modelled by the inductive type Json below; a parse
  failure (JSON.parse throwing) is modelled by passing none to the import
  action, which the try/catch of the source turns into a false result.
  JSON numbers are modelled as integers, which covers every value the
  store itself writes (Date.now timestamps).
- String.prototype.toLowerCase is modelled character by character with
  Char.toLower (ASCII case mapping); the country codes the store
  manipulates are ASCII.  The Lean library String.toLower does not reduce
  in the kernel, so the model maps over the underlying character list.
-/

/-- Model of a parsed JSON value (the result of JSON.parse). -/
inductive Json where
  | null
  | bool (b : Bool)
  | num (n : Int)
  | str (s : String)
  | arr (items : List Json)
  | obj (fields : List (String × Json))

/-- Property lookup on a parsed JSON value: fields of an object, and
undefined (none) for any other receiver.  Reading a property of null is
the one case that throws in JavaScript; callers model it separately. -/
def jsonGetField : List (String × Json) → String → Option Json
  | [], _ => none
  | (k, v) :: rest, key => if k = key then some v else jsonGetField rest key

/-- Property access item.key for a non-null JSON value. -/
def jsonGet : Json → String → Option Json
  | Json.obj fields, key => jsonGetField fields key
  | _, _ => none

/-- Lowercase a string the way the store does (code.toLowerCase()), as a
map over the character list so that the kernel can evaluate it. -/
def jsToLower (s : String) : String :=
  { data := s.data.map Char.toLower }

/-- Trim a string the way String.prototype.trim does, dropping leading
and trailing whitespace. -/
def jsTrim (s : String) : String :=
  { data := ((s.data.dropWhile Char.isWhitespace).reverse.dropWhile Char.isWhitespace).reverse }

/-- Metadata stored for one favorite: src/unnamed/part_005 keeps
favoritesMetadata as Record<string, { addedAt: number; notes?: string }>. -/
structure FavMeta where
  addedAt : Int
  notes : Option String
deriving DecidableEq

/-- Lookup in the metadata record, modelled as an association list. -/
def metaFind : List (String × FavMeta) → String → Option FavMeta
  | [], _ => none
  | (k, v) :: rest, c => if k = c then some v else metaFind rest c

/-- Spread update of the metadata record: the object spread with a
computed key replaces the value in place when the key exists and appends
the binding otherwise. -/
def metaInsert : List (String × FavMeta) → String → FavMeta → List (String × FavMeta)
  | [], c, v => [(c, v)]
  | (k, w) :: rest, c, v =>
      if k = c then (c, v) :: rest else (k, w) :: metaInsert rest c v

/-- Delete of a key from the metadata record (the delete operator). -/
def metaErase : List (String × FavMeta) → String → List (String × FavMeta)
  | [], _ => []
  | (k, w) :: rest, c => if k = c then metaErase rest c else (k, w) :: metaErase rest c

/-- State of the zustand store in src/unnamed/part_005. -/
structure AppState where
  isAuthenticated : Bool
  favorites : List String
  recentlyAdded : List String
  favoritesMetadata : List (String × FavMeta)
deriving DecidableEq

/-- Initial state of the store. -/
def initialState : AppState :=
  { isAuthenticated := false, favorites := [], recentlyAdded := [], favoritesMetadata := [] }

/-- Action login: sets the flag (the cookie write is a browser effect
outside the store state). -/
def login (s : AppState) : AppState :=
  { s with isAuthenticated := true }

/-- Action logout: clears the flag and all favorites state. -/
def logout (s : AppState) : AppState :=
  { s with isAuthenticated := false, favorites := [], recentlyAdded := [],
           favoritesMetadata := [] }

/-- Action toggleFavorite from src/unnamed/part_005 lines 54-84. -/
def toggleFavorite (s : AppState) (code : String) (now : Int) : AppState :=
  let n := jsToLower code
  if n ∈ s.favorites then
    { s with favorites := s.favorites.filter (fun fav => fav ≠ n),
             favoritesMetadata := metaErase s.favoritesMetadata n,
             recentlyAdded := s.recentlyAdded.filter (fun c => c ≠ n) }
  else
    { s with favorites := s.favorites ++ [n],
             favoritesMetadata := metaInsert s.favoritesMetadata n
               { addedAt := now, notes := none },
             recentlyAdded := (n :: s.recentlyAdded.filter (fun c => c ≠ n)).take 10 }

/-- Action addToFavorites from src/unnamed/part_005 lines 86-103. -/
def addToFavorites (s : AppState) (code : String) (notes : Option String) (now : Int) : AppState :=
  let n := jsToLower code
  if n ∈ s.favorites then s
  else
    { s with favorites := s.favorites ++ [n],
             favoritesMetadata := metaInsert s.favoritesMetadata n
               { addedAt := now, notes := notes },
             recentlyAdded := (n :: s.recentlyAdded.filter (fun c => c ≠ n)).take 10 }

/-- Action removeFromFavorites from src/unnamed/part_005 lines 105-120. -/
def removeFromFavorites (s : AppState) (code : String) : AppState :=
  let n := jsToLower code
  if n ∈ s.favorites then
    { s with favorites := s.favorites.filter (fun fav => fav ≠ n),
             favoritesMetadata := metaErase s.favoritesMetadata n,
             recentlyAdded := s.recentlyAdded.filter (fun c => c ≠ n) }
  else s

/-- Action addFavoriteNote from src/unnamed/part_005 lines 122-137. -/
def addFavoriteNote (s : AppState) (code : String) (note : String) : AppState :=
  let n := jsToLower code
  match metaFind s.favoritesMetadata n with
  | some m =>
      let updated : FavMeta := { m with notes := some note }
      { s with favoritesMetadata := metaInsert s.favoritesMetadata n updated }
  | none => s

/-- Action removeFavoriteNote from src/unnamed/part_005 lines 139-154. -/
def removeFavoriteNote (s : AppState) (code : String) : AppState :=
  let n := jsToLower code
  match metaFind s.favoritesMetadata n with
  | some m =>
      let updated : FavMeta := { m with notes := none }
      { s with favoritesMetadata := metaInsert s.favoritesMetadata n updated }
  | none => s

/-- Action clearAllFavorites from src/unnamed/part_005 lines 156-162. -/
def clearAllFavorites (s : AppState) : AppState :=
  { s with favorites := [], recentlyAdded := [], favoritesMetadata := [] }

/-- Value of the addedAt field the export writes for one code: the stored
addedAt unless it is absent or falsy (JavaScript or-default), in which
case Date.now() at export time is used. -/
def exportEntryAddedAt (s : AppState) (nowExp : Int) (code : String) : Int :=
  match metaFind s.favoritesMetadata code with
  | some m => if m.addedAt = 0 then nowExp else m.addedAt
  | none => nowExp

/-- Value of the notes field the export writes for one code. -/
def exportEntryNotes (s : AppState) (code : String) : Option String :=
  (metaFind s.favoritesMetadata code).bind (fun m => m.notes)

/-- One element of the exported favorites array.  JSON.stringify drops an
object key whose value is undefined, so the notes key is emitted only
when notes are present. -/
def exportEntry (s : AppState) (nowExp : Int) (code : String) : Json :=
  Json.obj ([("code", Json.str code),
             ("addedAt", Json.num (exportEntryAddedAt s nowExp code))] ++
    (match exportEntryNotes s code with
     | some n => [("notes", Json.str n)]
     | none => []))

/-- Action exportFavorites from src/unnamed/part_005 lines 164-178,
modelled up to the JSON.stringify and JSON.parse round trip, which is the
identity on the tree built here. -/
def exportFavorites (s : AppState) (nowExp : Int) (exportedAt : String) : Json :=
  Json.obj [("version", Json.str "1.0"),
            ("exportedAt", Json.str exportedAt),
            ("favorites", Json.arr (s.favorites.map (exportEntry s nowExp)))]

/-- Value used for addedAt when importing one item (item.addedAt or
Date.now(): the or-default fires when the field is absent, null, zero or
otherwise falsy; a truthy numeric field is taken as is).  The TypeScript
annotation types the field as an optional number, and only numeric
values are modelled. -/
def importAddedAt (item : Json) (now : Int) : Int :=
  match jsonGet item "addedAt" with
  | some (Json.num n) => if n = 0 then now else n
  | _ => now

/-- Notes taken from one imported item (item.notes); the annotation types
the field as an optional string, and only string values are modelled. -/
def importNotes (item : Json) : Option String :=
  match jsonGet item "notes" with
  | some (Json.str s) => some s
  | _ => none

/-- Discriminator for the JSON null value. -/
def jsonIsNull : Json → Bool
  | Json.null => true
  | _ => false

/-- Body of the forEach of importFavorites over importData.favorites.
Reading item.code of a null item throws a TypeError, which the
surrounding try/catch turns into a false result with no state change;
that abort is modelled by the none result.  An item whose code field is
missing, not a string, or falsy (the empty string) is skipped, as is a
code already present after normalization. -/
def importLoop (now : Int) :
    List Json → List String → List (String × FavMeta) → Nat →
    Option (List String × List (String × FavMeta) × Nat)
  | [], favs, meta, added => some (favs, meta, added)
  | item :: rest, favs, meta, added =>
    if jsonIsNull item then none
    else
      match jsonGet item "code" with
      | some (Json.str c) =>
          if c = "" then importLoop now rest favs meta added
          else
            let n := jsToLower c
            if n ∈ favs then importLoop now rest favs meta added
            else importLoop now rest (favs ++ [n])
                   (metaInsert meta n { addedAt := importAddedAt item now,
                                        notes := importNotes item })
                   (added + 1)
      | _ => importLoop now rest favs meta added

/-- Action importFavorites from src/unnamed/part_005 lines 180-224.  The
argument parsed is the JSON.parse result, none when parsing threw.  The
guard of the source accepts exactly a document whose favorites property
is an array (an array is always truthy, and every non-array favorites
value is either falsy or fails Array.isArray).  On success the
recentlyAdded queue becomes the last ten merged favorites, newest first,
and the boolean result is true even when nothing was added. -/
def importFavorites (s : AppState) (parsed : Option Json) (now : Int) : Bool × AppState :=
  match parsed with
  | none => (false, s)
  | some j =>
    if jsonIsNull j then (false, s)
    else
      match jsonGet j "favorites" with
      | some (Json.arr items) =>
        match importLoop now items s.favorites s.favoritesMetadata 0 with
        | none => (false, s)
        | some (favs, meta, added) =>
          if added > 0 then
            (true, { s with favorites := favs, favoritesMetadata := meta,
                            recentlyAdded := (favs.drop (favs.length - 10)).reverse })
          else (true, s)
      | _ => (false, s)

/-- Query getRecentlyAdded from src/unnamed/part_005 lines 226-229. -/
def getRecentlyAdded (s : AppState) (limit : Nat) : List String :=
  s.recentlyAdded.take limit

/-- One step of the store: every exported action, with its environment
inputs frozen into the step. -/
inductive Act where
  | toggle (code : String) (now : Int)
  | add (code : String) (notes : Option String) (now : Int)
  | remove (code : String)
  | addNote (code : String) (note : String)
  | removeNote (code : String)
  | clearAll
  | importDoc (parsed : Option Json) (now : Int)
  | logIn
  | logOut

/-- Apply one action to the store state. -/
def applyAct (s : AppState) : Act → AppState
  | Act.toggle code now => toggleFavorite s code now
  | Act.add code notes now => addToFavorites s code notes now
  | Act.remove code => removeFromFavorites s code
  | Act.addNote code note => addFavoriteNote s code note
  | Act.removeNote code => removeFavoriteNote s code
  | Act.clearAll => clearAllFavorites s
  | Act.importDoc parsed now => (importFavorites s parsed now).2
  | Act.logIn => login s
  | Act.logOut => logout s

/-- Run a sequence of actions from the empty initial state. -/
def run (acts : List Act) : AppState :=
  acts.foldl applyAct initialState


/-! Character and string lemmas about the modelled lowercase mapping. -/

theorem char_ofNat_toNat (n : Nat) (h : n.isValidChar) : (Char.ofNat n).toNat = n := by
  simp [Char.ofNat, h]
  rfl

theorem char_toLower_not_upper (c : Char) :
    ¬ (c.toLower.toNat ≥ 65 ∧ c.toLower.toNat ≤ 90) := by
  show ¬ ((if c.toNat ≥ 65 ∧ c.toNat ≤ 90 then Char.ofNat (c.toNat + 32) else c).toNat ≥ 65 ∧
      (if c.toNat ≥ 65 ∧ c.toNat ≤ 90 then Char.ofNat (c.toNat + 32) else c).toNat ≤ 90)
  by_cases h : c.toNat ≥ 65 ∧ c.toNat ≤ 90
  · rw [if_pos h, char_ofNat_toNat _ (by left; omega)]
    omega
  · rw [if_neg h]
    exact h

theorem char_toLower_of_not_upper (c : Char)
    (h : ¬ (c.toNat ≥ 65 ∧ c.toNat ≤ 90)) : c.toLower = c := by
  show (if c.toNat ≥ 65 ∧ c.toNat ≤ 90 then Char.ofNat (c.toNat + 32) else c) = c
  exact if_neg h

theorem char_toLower_idem (c : Char) : c.toLower.toLower = c.toLower :=
  char_toLower_of_not_upper _ (char_toLower_not_upper c)

theorem jsToLower_idem (s : String) : jsToLower (jsToLower s) = jsToLower s := by
  apply String.ext
  show (s.data.map Char.toLower).map Char.toLower = s.data.map Char.toLower
  rw [List.map_map]
  exact List.map_congr_left (fun c _ => char_toLower_idem c)

/-! Lemmas about the association list modelling the metadata record. -/

theorem metaFind_metaInsert (m : List (String × FavMeta)) (c d : String) (v : FavMeta) :
    metaFind (metaInsert m c v) d = if c = d then some v else metaFind m d := by
  induction m with
  | nil => simp [metaInsert, metaFind]
  | cons kv rest ih =>
      obtain ⟨k, w⟩ := kv
      simp only [metaInsert]
      by_cases hkc : k = c
      · subst hkc
        simp only [if_pos rfl, metaFind]
        by_cases hkd : k = d
        · subst hkd
          simp
        · simp [hkd]
      · simp only [if_neg hkc, metaFind, ih]
        by_cases hkd : k = d
        · subst hkd
          have hcd : ¬ c = k := fun h => hkc h.symm
          simp [hcd]
        · simp [hkd]

theorem metaFind_metaErase (m : List (String × FavMeta)) (c d : String) :
    metaFind (metaErase m c) d = if c = d then none else metaFind m d := by
  induction m with
  | nil => simp [metaErase, metaFind]
  | cons kv rest ih =>
      obtain ⟨k, w⟩ := kv
      simp only [metaErase]
      by_cases hkc : k = c
      · subst hkc
        simp only [if_pos rfl, metaFind, ih]
        by_cases hkd : k = d
        · subst hkd
          simp [ih]
        · simp [ih, hkd]
      · simp only [if_neg hkc, metaFind, ih]
        by_cases hkd : k = d
        · subst hkd
          have hcd : ¬ c = k := fun h => hkc h.symm
          simp [hcd]
        · simp [hkd]

/-! Well-formedness invariant of the favorites store. -/

/-- Invariant maintained by every store action: the favorites list is
duplicate free, a code is a favorite exactly when it has a metadata
entry, the recently added queue read backwards is a subsequence of the
favorites list (which is kept in chronological insertion order, so the
queue is newest first), the queue holds at most ten codes, and every
stored code is already lowercase. -/
def StoreInv (s : AppState) : Prop :=
  s.favorites.Nodup ∧
  (∀ c, c ∈ s.favorites ↔ (metaFind s.favoritesMetadata c).isSome) ∧
  s.recentlyAdded.reverse.Sublist s.favorites ∧
  s.recentlyAdded.length ≤ 10 ∧
  (∀ c ∈ s.favorites, jsToLower c = c)

theorem recent_take_sublist (r fav : List String) (n : String)
    (h : r.reverse.Sublist fav) :
    ((n :: r.filter (fun c => c ≠ n)).take 10).reverse.Sublist (fav ++ [n]) := by
  have h0 : (n :: r.filter (fun c => c ≠ n)).take 10 =
      n :: (r.filter (fun c => c ≠ n)).take 9 := rfl
  rw [h0, List.reverse_cons]
  refine List.Sublist.append ?_ (List.Sublist.refl [n])
  have h1 : ((r.filter (fun c => c ≠ n)).take 9).reverse.Sublist
      (r.filter (fun c => c ≠ n)).reverse := (List.take_sublist _ _).reverse
  have h2 : (r.filter (fun c => c ≠ n)).reverse = r.reverse.filter (fun c => c ≠ n) :=
    (List.filter_reverse _ _).symm
  have h3 : (r.reverse.filter (fun c => c ≠ n)).Sublist (fav.filter (fun c => c ≠ n)) :=
    h.filter _
  have h4 : (fav.filter (fun c => c ≠ n)).Sublist fav := List.filter_sublist _
  exact ((h2 ▸ h1).trans h3).trans h4

theorem storeInv_addCore (s : AppState) (n : String) (v : FavMeta)
    (hinv : StoreInv s) (hmem : n ∉ s.favorites) (hlow : jsToLower n = n) :
    StoreInv { s with favorites := s.favorites ++ [n],
                      favoritesMetadata := metaInsert s.favoritesMetadata n v,
                      recentlyAdded := (n :: s.recentlyAdded.filter (fun c => c ≠ n)).take 10 } := by
  obtain ⟨hnd, hm, hsub, hlen, hlc⟩ := hinv
  refine ⟨?_, ?_, ?_, ?_, ?_⟩
  · rw [List.nodup_append]
    refine ⟨hnd, List.nodup_singleton n, ?_⟩
    intro a ha hb
    rw [List.mem_singleton] at hb
    subst hb
    exact hmem ha
  · intro c
    rw [metaFind_metaInsert]
    by_cases hc : n = c
    · subst hc
      simp
    · have hcn : ¬ c = n := fun h => hc h.symm
      simp [hc, hcn, hm c]
  · exact recent_take_sublist _ _ _ hsub
  · rw [List.length_take]
    exact min_le_left _ _
  · intro c hc
    rcases List.mem_append.mp hc with h | h
    · exact hlc c h
    · rw [List.mem_singleton] at h
      subst h
      exact hlow

theorem storeInv_removeCore (s : AppState) (n : String) (hinv : StoreInv s) :
    StoreInv { s with favorites := s.favorites.filter (fun fav => fav ≠ n),
                      favoritesMetadata := metaErase s.favoritesMetadata n,
                      recentlyAdded := s.recentlyAdded.filter (fun c => c ≠ n) } := by
  obtain ⟨hnd, hm, hsub, hlen, hlc⟩ := hinv
  refine ⟨hnd.filter _, ?_, ?_, ?_, ?_⟩
  · intro c
    rw [metaFind_metaErase]
    by_cases hc : n = c
    · subst hc
      simp
    · have hcn : c ≠ n := fun h => hc h.symm
      simp [hc, hcn, hm c]
  · have h2 : (s.recentlyAdded.filter (fun c => c ≠ n)).reverse =
        s.recentlyAdded.reverse.filter (fun c => c ≠ n) := (List.filter_reverse _ _).symm
    rw [h2]
    exact hsub.filter _
  · exact le_trans (List.length_filter_le _ _) hlen
  · intro c hc
    exact hlc c (List.mem_of_mem_filter hc)

theorem storeInv_noteCore (s : AppState) (n : String) (v : FavMeta)
    (hfind : (metaFind s.favoritesMetadata n).isSome)
    (hinv : StoreInv s) :
    StoreInv { s with favoritesMetadata := metaInsert s.favoritesMetadata n v } := by
  obtain ⟨hnd, hm, hsub, hlen, hlc⟩ := hinv
  refine ⟨hnd, ?_, hsub, hlen, hlc⟩
  intro c
  rw [metaFind_metaInsert]
  by_cases hc : n = c
  · subst hc
    simp [(hm n).mpr hfind]
  · simp [hc, hm c]

theorem storeInv_toggleFavorite (s : AppState) (code : String) (now : Int)
    (hinv : StoreInv s) : StoreInv (toggleFavorite s code now) := by
  unfold toggleFavorite
  by_cases hmem : jsToLower code ∈ s.favorites
  · rw [if_pos hmem]
    exact storeInv_removeCore s (jsToLower code) hinv
  · rw [if_neg hmem]
    exact storeInv_addCore s (jsToLower code) _ hinv hmem (jsToLower_idem code)

theorem storeInv_addToFavorites (s : AppState) (code : String) (notes : Option String)
    (now : Int) (hinv : StoreInv s) : StoreInv (addToFavorites s code notes now) := by
  unfold addToFavorites
  by_cases hmem : jsToLower code ∈ s.favorites
  · rw [if_pos hmem]
    exact hinv
  · rw [if_neg hmem]
    exact storeInv_addCore s (jsToLower code) _ hinv hmem (jsToLower_idem code)

theorem storeInv_removeFromFavorites (s : AppState) (code : String)
    (hinv : StoreInv s) : StoreInv (removeFromFavorites s code) := by
  unfold removeFromFavorites
  by_cases hmem : jsToLower code ∈ s.favorites
  · rw [if_pos hmem]
    exact storeInv_removeCore s (jsToLower code) hinv
  · rw [if_neg hmem]
    exact hinv

theorem storeInv_addFavoriteNote (s : AppState) (code : String) (note : String)
    (hinv : StoreInv s) : StoreInv (addFavoriteNote s code note) := by
  simp only [addFavoriteNote]
  cases hfind : metaFind s.favoritesMetadata (jsToLower code) with
  | none => exact hinv
  | some m => exact storeInv_noteCore s (jsToLower code) _ (by rw [hfind]; rfl) hinv

theorem storeInv_removeFavoriteNote (s : AppState) (code : String)
    (hinv : StoreInv s) : StoreInv (removeFavoriteNote s code) := by
  simp only [removeFavoriteNote]
  cases hfind : metaFind s.favoritesMetadata (jsToLower code) with
  | none => exact hinv
  | some m => exact storeInv_noteCore s (jsToLower code) _ (by rw [hfind]; rfl) hinv

theorem storeInv_cleared (b : Bool) :
    StoreInv { isAuthenticated := b, favorites := [], recentlyAdded := [],
               favoritesMetadata := [] } := by
  refine ⟨List.nodup_nil, ?_, ?_, ?_, ?_⟩
  · intro c
    simp [metaFind]
  · simp
  · simp
  · intro c hc
    simp at hc

theorem storeInv_initial : StoreInv initialState :=
  storeInv_cleared false

theorem importLoop_inv (now : Int) (items : List Json) :
    ∀ (favs : List String) (meta : List (String × FavMeta)) (added : Nat)
      (favs2 : List String) (meta2 : List (String × FavMeta)) (added2 : Nat),
      favs.Nodup → (∀ d, d ∈ favs ↔ (metaFind meta d).isSome) →
      (∀ d ∈ favs, jsToLower d = d) →
      importLoop now items favs meta added = some (favs2, meta2, added2) →
      favs2.Nodup ∧ (∀ d, d ∈ favs2 ↔ (metaFind meta2 d).isSome) ∧
        (∀ d ∈ favs2, jsToLower d = d) := by
  induction items with
  | nil =>
      intro favs meta added favs2 meta2 added2 h1 h2 h3 heq
      simp only [importLoop, Option.some.injEq, Prod.mk.injEq] at heq
      obtain ⟨rfl, rfl, rfl⟩ := heq
      exact ⟨h1, h2, h3⟩
  | cons item rest ih =>
      intro favs meta added favs2 meta2 added2 h1 h2 h3 heq
      by_cases hnull : jsonIsNull item = true
      · simp [importLoop, hnull] at heq
      · simp only [importLoop, hnull, Bool.false_eq_true, if_false] at heq
        cases hcode : jsonGet item "code" with
        | none =>
            rw [hcode] at heq
            exact ih favs meta added favs2 meta2 added2 h1 h2 h3 heq
        | some cv =>
            rw [hcode] at heq
            cases cv with
            | str c =>
                have heq2 : (if c = "" then importLoop now rest favs meta added
                    else if jsToLower c ∈ favs then importLoop now rest favs meta added
                    else importLoop now rest (favs ++ [jsToLower c])
                      (metaInsert meta (jsToLower c)
                        { addedAt := importAddedAt item now, notes := importNotes item })
                      (added + 1)) = some (favs2, meta2, added2) := heq
                by_cases hce : c = ""
                · rw [if_pos hce] at heq2
                  exact ih favs meta added favs2 meta2 added2 h1 h2 h3 heq2
                · rw [if_neg hce] at heq2
                  by_cases hmem : jsToLower c ∈ favs
                  · rw [if_pos hmem] at heq2
                    exact ih favs meta added favs2 meta2 added2 h1 h2 h3 heq2
                  · rw [if_neg hmem] at heq2
                    refine ih _ _ _ favs2 meta2 added2 ?_ ?_ ?_ heq2
                    · rw [List.nodup_append]
                      refine ⟨h1, List.nodup_singleton _, ?_⟩
                      intro a ha hb
                      rw [List.mem_singleton] at hb
                      subst hb
                      exact hmem ha
                    · intro d
                      rw [metaFind_metaInsert]
                      by_cases hd : jsToLower c = d
                      · subst hd
                        simp
                      · have hdn : ¬ d = jsToLower c := fun h => hd h.symm
                        simp [hd, hdn, h2 d]
                    · intro d hd
                      rcases List.mem_append.mp hd with h | h
                      · exact h3 d h
                      · rw [List.mem_singleton] at h
                        subst h
                        exact jsToLower_idem c
            | null =>
                exact ih favs meta added favs2 meta2 added2 h1 h2 h3 heq
            | bool b =>
                exact ih favs meta added favs2 meta2 added2 h1 h2 h3 heq
            | num n =>
                exact ih favs meta added favs2 meta2 added2 h1 h2 h3 heq
            | arr l =>
                exact ih favs meta added favs2 meta2 added2 h1 h2 h3 heq
            | obj f =>
                exact ih favs meta added favs2 meta2 added2 h1 h2 h3 heq

/-- Case analysis of importFavorites: either the state is returned
untouched, or the merge succeeded and the next state is assembled from
the loop result. -/
theorem importFavorites_cases (s : AppState) (parsed : Option Json) (now : Int) :
    (importFavorites s parsed now).2 = s ∨
    ∃ j items favs meta added,
      parsed = some j ∧
      jsonGet j "favorites" = some (Json.arr items) ∧
      importLoop now items s.favorites s.favoritesMetadata 0 = some (favs, meta, added) ∧
      importFavorites s parsed now =
        (true, { s with favorites := favs, favoritesMetadata := meta,
                        recentlyAdded := (favs.drop (favs.length - 10)).reverse }) := by
  cases parsed with
  | none => exact Or.inl rfl
  | some j =>
      by_cases hnull : jsonIsNull j = true
      · left
        simp [importFavorites, hnull]
      · cases hfav : jsonGet j "favorites" with
        | none =>
            left
            simp [importFavorites, hnull, hfav]
        | some fv =>
            cases fv with
            | arr items =>
                cases hloop : importLoop now items s.favorites s.favoritesMetadata 0 with
                | none =>
                    left
                    simp [importFavorites, hnull, hfav, hloop]
                | some res =>
                    obtain ⟨favs, meta, added⟩ := res
                    by_cases hadd : added > 0
                    · right
                      refine ⟨j, items, favs, meta, added, rfl, hfav, hloop, ?_⟩
                      simp [importFavorites, hnull, hfav, hloop, hadd]
                    · left
                      simp [importFavorites, hnull, hfav, hloop, hadd]
            | null => left; simp [importFavorites, hnull, hfav]
            | bool b => left; simp [importFavorites, hnull, hfav]
            | num n => left; simp [importFavorites, hnull, hfav]
            | str c => left; simp [importFavorites, hnull, hfav]
            | obj f => left; simp [importFavorites, hnull, hfav]

theorem storeInv_importFavorites (s : AppState) (parsed : Option Json) (now : Int)
    (hinv : StoreInv s) : StoreInv (importFavorites s parsed now).2 := by
  rcases importFavorites_cases s parsed now with h | ⟨j, items, favs, meta, added, hp, hfav, hloop, hres⟩
  · rw [h]
    exact hinv
  · rw [hres]
    obtain ⟨hnd, hm, hsub, hlen, hlc⟩ := hinv
    obtain ⟨hnd2, hm2, hlc2⟩ :=
      importLoop_inv now items s.favorites s.favoritesMetadata 0 favs meta added hnd hm hlc hloop
    refine ⟨hnd2, hm2, ?_, ?_, hlc2⟩
    · rw [List.reverse_reverse]
      exact List.drop_sublist _ _
    · rw [List.length_reverse, List.length_drop]
      omega

theorem storeInv_applyAct (s : AppState) (a : Act) (hinv : StoreInv s) :
    StoreInv (applyAct s a) := by
  cases a with
  | toggle code now => exact storeInv_toggleFavorite s code now hinv
  | add code notes now => exact storeInv_addToFavorites s code notes now hinv
  | remove code => exact storeInv_removeFromFavorites s code hinv
  | addNote code note => exact storeInv_addFavoriteNote s code note hinv
  | removeNote code => exact storeInv_removeFavoriteNote s code hinv
  | clearAll => exact storeInv_cleared s.isAuthenticated
  | importDoc parsed now => exact storeInv_importFavorites s parsed now hinv
  | logIn =>
      obtain ⟨hnd, hm, hsub, hlen, hlc⟩ := hinv
      exact ⟨hnd, hm, hsub, hlen, hlc⟩
  | logOut => exact storeInv_cleared false

theorem storeInv_foldl (acts : List Act) :
    ∀ s : AppState, StoreInv s → StoreInv (acts.foldl applyAct s) := by
  induction acts with
  | nil => intro s h; exact h
  | cons a rest ih =>
      intro s h
      rw [List.foldl_cons]
      exact ih _ (storeInv_applyAct s a h)

theorem storeInv_run (acts : List Act) : StoreInv (run acts) :=
  storeInv_foldl acts initialState storeInv_initial

theorem toggleFavorite_mem (s : AppState) (x : String) (now : Int)
    (hmem : jsToLower x ∈ s.favorites) :
    toggleFavorite s x now =
      { s with favorites := s.favorites.filter (fun fav => fav ≠ jsToLower x),
               favoritesMetadata := metaErase s.favoritesMetadata (jsToLower x),
               recentlyAdded := s.recentlyAdded.filter (fun c => c ≠ jsToLower x) } := by
  simp only [toggleFavorite]
  rw [if_pos hmem]

theorem toggleFavorite_not_mem (s : AppState) (x : String) (now : Int)
    (hmem : jsToLower x ∉ s.favorites) :
    toggleFavorite s x now =
      { s with favorites := s.favorites ++ [jsToLower x],
               favoritesMetadata := metaInsert s.favoritesMetadata (jsToLower x)
                 { addedAt := now, notes := none },
               recentlyAdded :=
                 (jsToLower x :: s.recentlyAdded.filter (fun c => c ≠ jsToLower x)).take 10 } := by
  simp only [toggleFavorite]
  rw [if_neg hmem]

theorem addToFavorites_mem (s : AppState) (x : String) (notes : Option String) (now : Int)
    (hmem : jsToLower x ∈ s.favorites) :
    addToFavorites s x notes now = s := by
  simp only [addToFavorites]
  rw [if_pos hmem]

theorem addToFavorites_not_mem (s : AppState) (x : String) (notes : Option String) (now : Int)
    (hmem : jsToLower x ∉ s.favorites) :
    addToFavorites s x notes now =
      { s with favorites := s.favorites ++ [jsToLower x],
               favoritesMetadata := metaInsert s.favoritesMetadata (jsToLower x)
                 { addedAt := now, notes := notes },
               recentlyAdded :=
                 (jsToLower x :: s.recentlyAdded.filter (fun c => c ≠ jsToLower x)).take 10 } := by
  simp only [addToFavorites]
  rw [if_neg hmem]

/-- C1 (amended): in every reachable state of the favorites store, a code
is in the favorites list iff it has a metadata entry; the favorites list
and the recentlyAdded queue are duplicate free; the queue holds at most
ten codes, contains only favorite codes, and lists them newest first: its
reverse is a subsequence of the favorites list, which the actions keep in
chronological insertion order.  The converse inclusion of the original
claim, that every favorite is also in the queue, is false, because the
queue is truncated to ten entries while favorites are unbounded. -/
theorem favorites_reachable_invariant (acts : List Act) :
    (∀ c, c ∈ (run acts).favorites ↔ (metaFind (run acts).favoritesMetadata c).isSome) ∧
    (run acts).favorites.Nodup ∧
    (run acts).recentlyAdded.Nodup ∧
    (run acts).recentlyAdded.length ≤ 10 ∧
    (∀ c ∈ (run acts).recentlyAdded, c ∈ (run acts).favorites) ∧
    (run acts).recentlyAdded.reverse.Sublist (run acts).favorites := by
  obtain ⟨hnd, hm, hsub, hlen, hlc⟩ := storeInv_run acts
  refine ⟨hm, hnd, ?_, hlen, ?_, hsub⟩
  · exact List.nodup_reverse.mp (hsub.nodup hnd)
  · intro c hc
    exact hsub.subset (List.mem_reverse.mpr hc)

/-- C1 counterexample: after favoriting eleven distinct codes from the
empty store, the first code is still a favorite (with a metadata entry)
but is no longer in the recentlyAdded queue, so membership in favorites
and membership in recentlyAdded are not equivalent in a reachable
state. -/
theorem favorites_queue_counterexample :
    let s := run [Act.toggle "a" 0, Act.toggle "b" 0, Act.toggle "c" 0, Act.toggle "d" 0,
      Act.toggle "e" 0, Act.toggle "f" 0, Act.toggle "g" 0, Act.toggle "h" 0,
      Act.toggle "i" 0, Act.toggle "j" 0, Act.toggle "k" 0]
    "a" ∈ s.favorites ∧ (metaFind s.favoritesMetadata "a").isSome ∧
      "a" ∉ s.recentlyAdded := by
  decide

/-- C2 (amended): toggling a code twice preserves the set of favorite
codes (membership is unchanged for every code), though not necessarily
the whole favorites state; adding a code twice produces exactly the state
of adding it once, whatever the second notes and timestamp are. -/
theorem toggle_twice_membership_add_idem (s : AppState) (x : String)
    (now1 now2 : Int) (notes notes2 : Option String) :
    (∀ c, c ∈ (toggleFavorite (toggleFavorite s x now1) x now2).favorites ↔
      c ∈ s.favorites) ∧
    addToFavorites (addToFavorites s x notes now1) x notes2 now2 =
      addToFavorites s x notes now1 := by
  constructor
  · intro c
    by_cases hmem : jsToLower x ∈ s.favorites
    · rw [toggleFavorite_mem s x now1 hmem]
      have hnot : jsToLower x ∉ s.favorites.filter (fun fav => fav ≠ jsToLower x) := by
        simp
      rw [toggleFavorite_not_mem _ x now2 hnot]
      show c ∈ s.favorites.filter (fun fav => fav ≠ jsToLower x) ++ [jsToLower x] ↔ _
      rw [List.mem_append, List.mem_filter, List.mem_singleton]
      by_cases hc : c = jsToLower x
      · subst hc
        simp [hmem]
      · simp [hc]
    · rw [toggleFavorite_not_mem s x now1 hmem]
      have hin : jsToLower x ∈ s.favorites ++ [jsToLower x] := by
        simp
      rw [toggleFavorite_mem _ x now2 hin]
      show c ∈ (s.favorites ++ [jsToLower x]).filter (fun fav => fav ≠ jsToLower x) ↔ _
      rw [List.mem_filter, List.mem_append, List.mem_singleton]
      by_cases hc : c = jsToLower x
      · subst hc
        simp [hmem]
      · simp [hc]
  · by_cases hmem : jsToLower x ∈ s.favorites
    · rw [addToFavorites_mem s x notes now1 hmem, addToFavorites_mem s x notes2 now2 hmem]
    · rw [addToFavorites_not_mem s x notes now1 hmem]
      have hin : jsToLower x ∈ s.favorites ++ [jsToLower x] := by
        simp
      exact addToFavorites_mem _ x notes2 now2 hin

/-- C2 counterexample: with ten favorites already present, toggling an
eleventh code twice does not return the store to its original state: the
oldest entry of the recentlyAdded queue is lost to the ten entry
truncation. -/
theorem toggle_twice_counterexample :
    let s := run [Act.toggle "a" 0, Act.toggle "b" 0, Act.toggle "c" 0, Act.toggle "d" 0,
      Act.toggle "e" 0, Act.toggle "f" 0, Act.toggle "g" 0, Act.toggle "h" 0,
      Act.toggle "i" 0, Act.toggle "j" 0]
    toggleFavorite (toggleFavorite s "x" 0) "x" 0 ≠ s := by
  decide

/-- C10: every favorites mutation of the store, with any arguments and in
any state, leaves the isAuthenticated flag unchanged; only login and
logout write it. -/
theorem favorites_ops_preserve_auth (s : AppState) (code : String)
    (notes : Option String) (note : String) (now : Int) (parsed : Option Json) :
    (toggleFavorite s code now).isAuthenticated = s.isAuthenticated ∧
    (addToFavorites s code notes now).isAuthenticated = s.isAuthenticated ∧
    (removeFromFavorites s code).isAuthenticated = s.isAuthenticated ∧
    (addFavoriteNote s code note).isAuthenticated = s.isAuthenticated ∧
    (removeFavoriteNote s code).isAuthenticated = s.isAuthenticated ∧
    (clearAllFavorites s).isAuthenticated = s.isAuthenticated ∧
    ((importFavorites s parsed now).2).isAuthenticated = s.isAuthenticated := by
  refine ⟨?_, ?_, ?_, ?_, ?_, rfl, ?_⟩
  · by_cases hmem : jsToLower code ∈ s.favorites
    · rw [toggleFavorite_mem s code now hmem]
    · rw [toggleFavorite_not_mem s code now hmem]
  · by_cases hmem : jsToLower code ∈ s.favorites
    · rw [addToFavorites_mem s code notes now hmem]
    · rw [addToFavorites_not_mem s code notes now hmem]
  · simp only [removeFromFavorites]
    by_cases hmem : jsToLower code ∈ s.favorites
    · rw [if_pos hmem]
    · rw [if_neg hmem]
  · simp only [addFavoriteNote]
    cases hfind : metaFind s.favoritesMetadata (jsToLower code) with
    | none => rfl
    | some m => rfl
  · simp only [removeFavoriteNote]
    cases hfind : metaFind s.favoritesMetadata (jsToLower code) with
    | none => rfl
    | some m => rfl
  · rcases importFavorites_cases s parsed now with h | ⟨j, items, favs, meta, added, hp, hfav, hloop, hres⟩
    · rw [h]
    · rw [hres]

/-- Test whether an import document is malformed in the sense of the
source guard: the JSON text did not parse (JSON.parse threw), parsed to
null (so reading .favorites throws), or has no favorites property that
is an array. -/
def importDocMalformed (parsed : Option Json) : Bool :=
  match parsed with
  | none => true
  | some j =>
    if jsonIsNull j then true
    else
      match jsonGet j "favorites" with
      | some (Json.arr _) => false
      | _ => true

/-- C3: importFavorites is a total function returning a boolean (the
try/catch of the source converts every throw into a false result), and
on a malformed document, one that fails to parse or lacks an array
favorites property, it returns false and leaves the whole store state,
favorites, metadata, recentlyAdded and isAuthenticated alike,
unchanged; moreover whenever it returns false the state is unchanged. -/
theorem importFavorites_malformed_no_change (s : AppState) (parsed : Option Json) (now : Int) :
    (importDocMalformed parsed = true → importFavorites s parsed now = (false, s)) ∧
    ((importFavorites s parsed now).1 = false → (importFavorites s parsed now).2 = s) := by
  constructor
  · intro hmal
    cases parsed with
    | none => rfl
    | some j =>
        by_cases hnull : jsonIsNull j = true
        · simp [importFavorites, hnull]
        · simp only [importDocMalformed, hnull, Bool.false_eq_true, if_false] at hmal
          cases hfav : jsonGet j "favorites" with
          | none => simp [importFavorites, hnull, hfav]
          | some fv =>
              rw [hfav] at hmal
              cases fv with
              | arr items => simp at hmal
              | null => simp [importFavorites, hnull, hfav]
              | bool b => simp [importFavorites, hnull, hfav]
              | num n => simp [importFavorites, hnull, hfav]
              | str c => simp [importFavorites, hnull, hfav]
              | obj f => simp [importFavorites, hnull, hfav]
  · intro hfalse
    cases parsed with
    | none => rfl
    | some j =>
        by_cases hnull : jsonIsNull j = true
        · simp [importFavorites, hnull]
        · cases hfav : jsonGet j "favorites" with
          | none => simp [importFavorites, hnull, hfav]
          | some fv =>
              cases fv with
              | arr items =>
                  cases hloop : importLoop now items s.favorites s.favoritesMetadata 0 with
                  | none => simp [importFavorites, hnull, hfav, hloop]
                  | some res =>
                      obtain ⟨favs, meta, added⟩ := res
                      by_cases hadd : added > 0
                      · exfalso
                        simp [importFavorites, hnull, hfav, hloop, hadd] at hfalse
                      · simp [importFavorites, hnull, hfav, hloop, hadd]
              | null => simp [importFavorites, hnull, hfav]
              | bool b => simp [importFavorites, hnull, hfav]
              | num n => simp [importFavorites, hnull, hfav]
              | str c => simp [importFavorites, hnull, hfav]
              | obj f => simp [importFavorites, hnull, hfav]

/-- C3 witness: the scenario of the specification, importing the
document with text between braces not : valid into the empty store,
returns false and leaves the store unchanged. -/
theorem importFavorites_malformed_no_change_witness :
    importFavorites initialState (some (Json.obj [("not", Json.str "valid")])) 7 =
      (false, initialState) :=
  (importFavorites_malformed_no_change initialState
    (some (Json.obj [("not", Json.str "valid")])) 7).1 (by decide)

theorem exportEntry_code (s : AppState) (nowExp : Int) (code : String) :
    jsonGet (exportEntry s nowExp code) "code" = some (Json.str code) := rfl

theorem exportEntry_addedAt (s : AppState) (nowExp : Int) (code : String) :
    jsonGet (exportEntry s nowExp code) "addedAt" =
      some (Json.num (exportEntryAddedAt s nowExp code)) := rfl

theorem exportEntry_not_null (s : AppState) (nowExp : Int) (code : String) :
    jsonIsNull (exportEntry s nowExp code) = false := rfl

theorem exportEntry_importNotes (s : AppState) (nowExp : Int) (code : String) :
    importNotes (exportEntry s nowExp code) = exportEntryNotes s code := by
  unfold exportEntry
  cases hnotes : exportEntryNotes s code with
  | none => rfl
  | some n => rfl

theorem exportEntryAddedAt_ne_zero (s : AppState) (nowExp : Int) (code : String)
    (hexp : nowExp ≠ 0) : exportEntryAddedAt s nowExp code ≠ 0 := by
  unfold exportEntryAddedAt
  cases hfind : metaFind s.favoritesMetadata code with
  | none => exact hexp
  | some m =>
      show (if m.addedAt = 0 then nowExp else m.addedAt) ≠ 0
      by_cases hz : m.addedAt = 0
      · rw [if_pos hz]
        exact hexp
      · rw [if_neg hz]
        exact hz

theorem exportEntry_importAddedAt (s : AppState) (nowExp now2 : Int) (code : String)
    (hexp : nowExp ≠ 0) :
    importAddedAt (exportEntry s nowExp code) now2 = exportEntryAddedAt s nowExp code := by
  have hne : exportEntryAddedAt s nowExp code ≠ 0 := exportEntryAddedAt_ne_zero s nowExp code hexp
  show (if exportEntryAddedAt s nowExp code = 0 then now2 else exportEntryAddedAt s nowExp code) =
    exportEntryAddedAt s nowExp code
  rw [if_neg hne]

/-- Running the import loop over an exported favorites array appends all
its codes in order and installs exactly the exported metadata. -/
theorem importLoop_export (s : AppState) (nowExp now2 : Int) (hexp : nowExp ≠ 0) :
    ∀ (L favsAcc : List String) (metaAcc : List (String × FavMeta)) (addedAcc : Nat),
      (∀ c ∈ L, jsToLower c = c) → (∀ c ∈ L, c ≠ "") → L.Nodup →
      (∀ c ∈ L, c ∉ favsAcc) →
      ∃ meta2,
        importLoop now2 (L.map (exportEntry s nowExp)) favsAcc metaAcc addedAcc =
          some (favsAcc ++ L, meta2, addedAcc + L.length) ∧
        (∀ c ∈ L, metaFind meta2 c =
          some { addedAt := exportEntryAddedAt s nowExp c, notes := exportEntryNotes s c }) ∧
        (∀ c, c ∉ L → metaFind meta2 c = metaFind metaAcc c) := by
  intro L
  induction L with
  | nil =>
      intro favsAcc metaAcc addedAcc hlc hne hnd hdisj
      refine ⟨metaAcc, ?_, ?_, ?_⟩
      · simp [importLoop]
      · intro c hc
        simp at hc
      · intro c hc
        rfl
  | cons x rest ih =>
      intro favsAcc metaAcc addedAcc hlc hne hnd hdisj
      have hx_lc : jsToLower x = x := hlc x (List.mem_cons_self x rest)
      have hx_ne : x ≠ "" := hne x (List.mem_cons_self x rest)
      have hx_fresh : x ∉ favsAcc := hdisj x (List.mem_cons_self x rest)
      have hx_rest : x ∉ rest := (List.nodup_cons.mp hnd).1
      obtain ⟨meta2, hloop, hin, hout⟩ := ih (favsAcc ++ [x])
        (metaInsert metaAcc x
          { addedAt := exportEntryAddedAt s nowExp x, notes := exportEntryNotes s x })
        (addedAcc + 1)
        (fun c hc => hlc c (List.mem_cons_of_mem x hc))
        (fun c hc => hne c (List.mem_cons_of_mem x hc))
        (List.nodup_cons.mp hnd).2
        (by
          intro c hc hmem
          rcases List.mem_append.mp hmem with h | h
          · exact hdisj c (List.mem_cons_of_mem x hc) h
          · rw [List.mem_singleton] at h
            subst h
            exact hx_rest hc)
      refine ⟨meta2, ?_, ?_, ?_⟩
      · have hstep : importLoop now2 ((x :: rest).map (exportEntry s nowExp)) favsAcc metaAcc addedAcc =
            importLoop now2 (rest.map (exportEntry s nowExp)) (favsAcc ++ [jsToLower x])
              (metaInsert metaAcc (jsToLower x)
                { addedAt := importAddedAt (exportEntry s nowExp x) now2,
                  notes := importNotes (exportEntry s nowExp x) })
              (addedAcc + 1) := by
          show (if jsonIsNull (exportEntry s nowExp x) then none
              else match jsonGet (exportEntry s nowExp x) "code" with
                | some (Json.str c) =>
                    if c = "" then importLoop now2 (rest.map (exportEntry s nowExp)) favsAcc metaAcc addedAcc
                    else
                      if jsToLower c ∈ favsAcc then
                        importLoop now2 (rest.map (exportEntry s nowExp)) favsAcc metaAcc addedAcc
                      else importLoop now2 (rest.map (exportEntry s nowExp)) (favsAcc ++ [jsToLower c])
                        (metaInsert metaAcc (jsToLower c)
                          { addedAt := importAddedAt (exportEntry s nowExp x) now2,
                            notes := importNotes (exportEntry s nowExp x) })
                        (addedAcc + 1)
                | _ => importLoop now2 (rest.map (exportEntry s nowExp)) favsAcc metaAcc addedAcc) = _
          rw [exportEntry_not_null, exportEntry_code]
          show (if x = "" then importLoop now2 (rest.map (exportEntry s nowExp)) favsAcc metaAcc addedAcc
              else
                if jsToLower x ∈ favsAcc then
                  importLoop now2 (rest.map (exportEntry s nowExp)) favsAcc metaAcc addedAcc
                else importLoop now2 (rest.map (exportEntry s nowExp)) (favsAcc ++ [jsToLower x])
                  (metaInsert metaAcc (jsToLower x)
                    { addedAt := importAddedAt (exportEntry s nowExp x) now2,
                      notes := importNotes (exportEntry s nowExp x) })
                  (addedAcc + 1)) = _
          rw [if_neg hx_ne, hx_lc, if_neg hx_fresh]
        rw [hstep, hx_lc, exportEntry_importAddedAt s nowExp now2 x hexp,
          exportEntry_importNotes, hloop, List.append_assoc]
        have hlen2 : addedAcc + 1 + rest.length = addedAcc + (rest.length + 1) := by omega
        rw [hlen2]
        rfl
      · intro c hc
        rcases List.mem_cons.mp hc with rfl | hc2
        · rw [hout c hx_rest, metaFind_metaInsert, if_pos rfl]
        · exact hin c hc2
      · intro c hc
        have hc1 : c ≠ x := fun h => hc (h ▸ List.mem_cons_self x rest)
        have hc2 : c ∉ rest := fun h => hc (List.mem_cons_of_mem x h)
        rw [hout c hc2, metaFind_metaInsert, if_neg (fun h => hc1 h.symm)]

theorem export_import_state (s : AppState) (nowExp now2 : Int) (exportedAt : String)
    (hexp : nowExp ≠ 0) (hnd : s.favorites.Nodup)
    (hlc : ∀ c ∈ s.favorites, jsToLower c = c) (hne : "" ∉ s.favorites) :
    ∃ meta2,
      importFavorites initialState (some (exportFavorites s nowExp exportedAt)) now2 =
        (true, { isAuthenticated := false, favorites := s.favorites,
                 recentlyAdded := (s.favorites.drop (s.favorites.length - 10)).reverse,
                 favoritesMetadata := meta2 }) ∧
      (∀ c ∈ s.favorites, metaFind meta2 c =
        some { addedAt := exportEntryAddedAt s nowExp c, notes := exportEntryNotes s c }) := by
  obtain ⟨meta2, hloop, hin, hout⟩ := importLoop_export s nowExp now2 hexp s.favorites [] [] 0
    hlc (fun c hc h => hne (h ▸ hc)) hnd (fun c _ h => (List.not_mem_nil c) h)
  simp only [List.nil_append, Nat.zero_add] at hloop
  by_cases hlen : s.favorites.length > 0
  · refine ⟨meta2, ?_, hin⟩
    show (match importLoop now2 (s.favorites.map (exportEntry s nowExp)) [] [] 0 with
        | none => (false, initialState)
        | some (favs, meta, added) =>
          if added > 0 then
            (true, { isAuthenticated := false, favorites := favs,
                     recentlyAdded := (favs.drop (favs.length - 10)).reverse,
                     favoritesMetadata := meta })
          else (true, initialState)) = _
    rw [hloop]
    show (if s.favorites.length > 0 then
        (true, { isAuthenticated := false, favorites := s.favorites,
                 recentlyAdded := (s.favorites.drop (s.favorites.length - 10)).reverse,
                 favoritesMetadata := meta2 })
      else (true, initialState)) = _
    rw [if_pos hlen]
  · have h0 : s.favorites = [] := List.length_eq_zero.mp (by omega)
    refine ⟨meta2, ?_, hin⟩
    show (match importLoop now2 (s.favorites.map (exportEntry s nowExp)) [] [] 0 with
        | none => (false, initialState)
        | some (favs, meta, added) =>
          if added > 0 then
            (true, { isAuthenticated := false, favorites := favs,
                     recentlyAdded := (favs.drop (favs.length - 10)).reverse,
                     favoritesMetadata := meta })
          else (true, initialState)) = _
    rw [hloop]
    show (if s.favorites.length > 0 then
        (true, { isAuthenticated := false, favorites := s.favorites,
                 recentlyAdded := (s.favorites.drop (s.favorites.length - 10)).reverse,
                 favoritesMetadata := meta2 })
      else (true, initialState)) = _
    rw [if_neg hlen]
    rw [h0] at hout ⊢
    have hm2 : meta2 = [] := by
      cases hmeta2 : meta2 with
      | nil => rfl
      | cons kv rest =>
          exfalso
          obtain ⟨k, v⟩ := kv
          have := hout k (List.not_mem_nil k)
          rw [hmeta2] at this
          simp [metaFind] at this
    rw [hm2]
    rfl

/-- C4 (amended): for every reachable store state with no empty-string
favorite code, and an export timestamp that is not the zero epoch,
importing the exported document into an empty store succeeds and yields
exactly the same favorite codes, and every imported entry carries the
addedAt value and the notes written in the exported document rather than
freshly generated ones.  A favorite whose code is the empty string is
dropped by the import (the JavaScript truthiness guard on item.code), and
a document addedAt of zero would be regenerated, which is why those two
cases are excluded. -/
theorem export_import_roundtrip (acts : List Act) (nowExp now2 : Int) (exportedAt : String)
    (hexp : nowExp ≠ 0) (hne : "" ∉ (run acts).favorites) :
    (importFavorites initialState
        (some (exportFavorites (run acts) nowExp exportedAt)) now2).1 = true ∧
    (importFavorites initialState
        (some (exportFavorites (run acts) nowExp exportedAt)) now2).2.favorites =
      (run acts).favorites ∧
    (∀ c ∈ (run acts).favorites,
      metaFind (importFavorites initialState
          (some (exportFavorites (run acts) nowExp exportedAt)) now2).2.favoritesMetadata c =
        some { addedAt := exportEntryAddedAt (run acts) nowExp c,
               notes := exportEntryNotes (run acts) c }) := by
  obtain ⟨hnd, hm, hsub, hlen, hlc⟩ := storeInv_run acts
  obtain ⟨meta2, hres, hin⟩ :=
    export_import_state (run acts) nowExp now2 exportedAt hexp hnd hlc hne
  rw [hres]
  exact ⟨rfl, rfl, hin⟩

/-- C4 witness: a store holding the single favorite us with note-free
metadata round-trips through export and import into an empty store. -/
theorem export_import_roundtrip_witness :
    "" ∉ (run [Act.toggle "us" 5]).favorites ∧ (7 : Int) ≠ 0 ∧
    ((importFavorites initialState
        (some (exportFavorites (run [Act.toggle "us" 5]) 7 "t")) 9).1 = true ∧
    (importFavorites initialState
        (some (exportFavorites (run [Act.toggle "us" 5]) 7 "t")) 9).2.favorites =
      (run [Act.toggle "us" 5]).favorites ∧
    (∀ c ∈ (run [Act.toggle "us" 5]).favorites,
      metaFind (importFavorites initialState
          (some (exportFavorites (run [Act.toggle "us" 5]) 7 "t")) 9).2.favoritesMetadata c =
        some { addedAt := exportEntryAddedAt (run [Act.toggle "us" 5]) 7 c,
               notes := exportEntryNotes (run [Act.toggle "us" 5]) c })) :=
  ⟨by decide, by decide,
    export_import_roundtrip [Act.toggle "us" 5] 7 9 "t" (by decide) (by decide)⟩

/-- C4 counterexample: the reachable state holding the single favorite
code empty string does not round-trip: the import drops the entry, so the
resulting favorites differ from the original ones. -/
theorem export_import_counterexample :
    (run [Act.toggle "" 3]).favorites = [""] ∧
    (importFavorites initialState
        (some (exportFavorites (run [Act.toggle "" 3]) 7 "x")) 9).2.favorites = [] := by
  decide

/-! Filter and sort engine (CountryListContainer, src/unnamed/part_001). -/

/-- Basic country record (the CountryBasic interface of types/country.ts,
current revision, which is also the output shape of the zod basic
schema; capital is always an array after validation). -/
structure CountryBasic where
  cca2 : String
  cca3 : String
  nameCommon : String
  nameOfficial : String
  flagsPng : String
  flagsSvg : String
  population : Int
  region : String
  capital : List String
deriving DecidableEq

/-- Sort key of the view state. -/
inductive SortKey where
  | name
  | population
  | area
deriving DecidableEq

/-- Sort direction of the view state. -/
inductive SortOrder where
  | asc
  | desc
deriving DecidableEq

/-- The pieces of CountryListContainer state the view reads: the
debounced search term, the selected region and the sort controls. -/
structure FilterCriteria where
  debouncedSearchTerm : String
  selectedRegion : String
  sortBy : SortKey
  sortOrder : SortOrder

/-- Occurrence of the pattern at the start of the text. -/
def seqStarts : List Char → List Char → Bool
  | [], _ => true
  | _ :: _, [] => false
  | p :: ps, t :: ts => p == t && seqStarts ps ts

/-- Contiguous occurrence of the pattern anywhere in the text, the model
of String.prototype.includes. -/
def seqContains : List Char → List Char → Bool
  | pat, [] => seqStarts pat []
  | pat, t :: ts => seqStarts pat (t :: ts) || seqContains pat ts

/-- JavaScript s.includes(pat). -/
def jsIncludes (s pat : String) : Bool :=
  seqContains pat.data s.data

theorem seqStarts_iff (pat text : List Char) :
    seqStarts pat text = true ↔ ∃ rest, text = pat ++ rest := by
  induction pat generalizing text with
  | nil => simp [seqStarts]
  | cons p ps ih =>
      cases text with
      | nil => simp [seqStarts]
      | cons t ts =>
          simp only [seqStarts, Bool.and_eq_true, beq_iff_eq, ih, List.cons_append]
          constructor
          · rintro ⟨rfl, rest, rfl⟩
            exact ⟨rest, rfl⟩
          · rintro ⟨rest, heq⟩
            injection heq with h1 h2
            exact ⟨h1.symm, rest, h2⟩

theorem seqContains_iff (pat text : List Char) :
    seqContains pat text = true ↔ ∃ pre post, text = pre ++ (pat ++ post) := by
  induction text with
  | nil =>
      rw [show seqContains pat [] = seqStarts pat [] from rfl, seqStarts_iff]
      constructor
      · rintro ⟨rest, hr⟩
        exact ⟨[], rest, hr⟩
      · rintro ⟨pre, post, hp⟩
        cases pre with
        | nil => exact ⟨post, hp⟩
        | cons a l => simp at hp
  | cons t ts ih =>
      rw [show seqContains pat (t :: ts) = (seqStarts pat (t :: ts) || seqContains pat ts)
          from rfl, Bool.or_eq_true, seqStarts_iff, ih]
      constructor
      · rintro (⟨rest, hr⟩ | ⟨pre, post, hp⟩)
        · exact ⟨[], rest, hr⟩
        · refine ⟨t :: pre, post, ?_⟩
          rw [List.cons_append, ← hp]
      · rintro ⟨pre, post, hp⟩
        cases pre with
        | nil => exact Or.inl ⟨post, hp⟩
        | cons a l =>
            right
            rw [List.cons_append] at hp
            injection hp with h1 h2
            exact ⟨l, post, h2⟩

theorem jsIncludes_iff (s pat : String) :
    jsIncludes s pat = true ↔ ∃ pre post, s.data = pre ++ (pat.data ++ post) :=
  seqContains_iff pat.data s.data

/-- Filtering predicate of filteredAndSortedCountries (lines 79-94 of
src/unnamed/part_001): the region clause and the search clause.  The
and-guard on country.capital in the source is the identity because an
array is always truthy in JavaScript, leaving the some-quantification. -/
def countryMatches (crit : FilterCriteria) (country : CountryBasic) : Bool :=
  let term := jsToLower crit.debouncedSearchTerm
  let matchesRegion := crit.selectedRegion == "" || country.region == crit.selectedRegion
  let matchesSearch := jsTrim crit.debouncedSearchTerm == "" ||
    (jsIncludes (jsToLower country.nameCommon) term ||
     jsIncludes (jsToLower country.nameOfficial) term ||
     country.capital.any (fun cap => jsIncludes (jsToLower cap) term) ||
     jsIncludes (jsToLower country.region) term)
  matchesRegion && matchesSearch

/-- Comparator of the sort switch (lines 97-116): name delegates to
localeCompare, an environment function passed here as nameCmp; the
population and area keys both compare by numeric population difference,
area deliberately falling back because the basic record has no area. -/
def countryComparison (nameCmp : String → String → Int) (key : SortKey)
    (a b : CountryBasic) : Int :=
  match key with
  | SortKey.name => nameCmp a.nameCommon b.nameCommon
  | SortKey.population => a.population - b.population
  | SortKey.area => a.population - b.population

/-- Comparator after the order flip: ascending uses the comparison,
descending its negation. -/
def countryComparator (nameCmp : String → String → Int) (crit : FilterCriteria)
    (a b : CountryBasic) : Int :=
  match crit.sortOrder with
  | SortOrder.asc => countryComparison nameCmp crit.sortBy a b
  | SortOrder.desc => - countryComparison nameCmp crit.sortBy a b

/-- Keep-in-order relation fed to the stable sort: JavaScript sort keeps
a before b when the comparator result is nonpositive, and the sort is
stable per the language specification; mergeSort models such a sort. -/
def jsSortLe {α : Type} (cmp : α → α → Int) (a b : α) : Bool :=
  cmp a b ≤ 0

/-- The filteredAndSortedCountries view (lines 78-119): filter by the
predicate, then stable sort by the comparator.  The source sorts a fresh
array produced by filter, so the input array is never mutated; the model
is a pure function. -/
def filteredAndSortedCountries (nameCmp : String → String → Int)
    (countries : List CountryBasic) (crit : FilterCriteria) : List CountryBasic :=
  (countries.filter (countryMatches crit)).mergeSort
    (jsSortLe (countryComparator nameCmp crit))

/-- C5: with a search term empty after trimming and an empty region, the
view equals the stable sort of the whole input by the criteria
comparator, it is a permutation of the input (length preserving, no
record dropped), and whenever the keep-in-order relation is transitive
and total (always for the population and area keys; for name whenever
nameCmp behaves like a comparison) the output is pairwise ordered by it.
The view is a pure function of its arguments, so the input list is not
mutated by construction. -/
theorem view_empty_filters (nameCmp : String → String → Int)
    (countries : List CountryBasic) (crit : FilterCriteria)
    (hterm : jsTrim crit.debouncedSearchTerm = "")
    (hregion : crit.selectedRegion = "") :
    filteredAndSortedCountries nameCmp countries crit =
      countries.mergeSort (jsSortLe (countryComparator nameCmp crit)) ∧
    (filteredAndSortedCountries nameCmp countries crit).Perm countries ∧
    (filteredAndSortedCountries nameCmp countries crit).length = countries.length ∧
    ((∀ a b c, jsSortLe (countryComparator nameCmp crit) a b = true →
        jsSortLe (countryComparator nameCmp crit) b c = true →
        jsSortLe (countryComparator nameCmp crit) a c = true) →
      (∀ a b, (jsSortLe (countryComparator nameCmp crit) a b ||
        jsSortLe (countryComparator nameCmp crit) b a) = true) →
      List.Pairwise (fun a b => jsSortLe (countryComparator nameCmp crit) a b = true)
        (filteredAndSortedCountries nameCmp countries crit)) := by
  have hfilter : countries.filter (countryMatches crit) = countries := by
    rw [List.filter_eq_self]
    intro a ha
    simp only [countryMatches]
    rw [hregion, hterm]
    simp
  have hview : filteredAndSortedCountries nameCmp countries crit =
      countries.mergeSort (jsSortLe (countryComparator nameCmp crit)) := by
    unfold filteredAndSortedCountries
    rw [hfilter]
  refine ⟨hview, ?_, ?_, ?_⟩
  · rw [hview]
    exact List.mergeSort_perm countries _
  · rw [hview]
    exact (List.mergeSort_perm countries _).length_eq
  · intro htrans htot
    rw [hview]
    exact List.sorted_mergeSort htrans htot countries

/-- Record for the United States used in concrete scenarios. -/
def usRecord : CountryBasic :=
  { cca2 := "US", cca3 := "USA", nameCommon := "United States",
    nameOfficial := "United States of America", flagsPng := "us.png",
    flagsSvg := "us.svg", population := 331000000, region := "Americas",
    capital := ["Washington, D.C."] }

/-- Record for Canada used in concrete scenarios. -/
def caRecord : CountryBasic :=
  { cca2 := "CA", cca3 := "CAN", nameCommon := "Canada",
    nameOfficial := "Canada", flagsPng := "ca.png", flagsSvg := "ca.svg",
    population := 38000000, region := "Americas", capital := ["Ottawa"] }

/-- Criteria with empty search and region, sorting by population
ascending, as in the specification scenario. -/
def critPopAsc : FilterCriteria :=
  { debouncedSearchTerm := "", selectedRegion := "",
    sortBy := SortKey.population, sortOrder := SortOrder.asc }

/-- C5 witness: the view on the two record scenario with empty filters is
the population sort of the whole input and a permutation of it. -/
theorem view_empty_filters_witness :
    filteredAndSortedCountries (fun _ _ => 0) [usRecord, caRecord] critPopAsc =
      [usRecord, caRecord].mergeSort
        (jsSortLe (countryComparator (fun _ _ => 0) critPopAsc)) ∧
    (filteredAndSortedCountries (fun _ _ => 0) [usRecord, caRecord] critPopAsc).Perm
      [usRecord, caRecord] :=
  ⟨(view_empty_filters (fun _ _ => 0) [usRecord, caRecord] critPopAsc rfl rfl).1,
   (view_empty_filters (fun _ _ => 0) [usRecord, caRecord] critPopAsc rfl rfl).2.1⟩

/-- Occurrence of a term, case insensitively, inside a string: the
specification notion of case insensitive substring match, stated as an
explicit decomposition of the lowercased text around the lowercased
term. -/
def ciOccurs (term hay : String) : Prop :=
  ∃ pre post, (jsToLower hay).data = pre ++ ((jsToLower term).data ++ post)

/-- Filtering predicate as the specification words it: the conjunction
of a region clause (empty or exactly equal) and a search clause (term
empty after trimming, or a case insensitive substring of the common
name, the official name, any capital, or the region name). -/
def specCountryMatches (crit : FilterCriteria) (country : CountryBasic) : Prop :=
  (crit.selectedRegion = "" ∨ country.region = crit.selectedRegion) ∧
  (jsTrim crit.debouncedSearchTerm = "" ∨
    ciOccurs crit.debouncedSearchTerm country.nameCommon ∨
    ciOccurs crit.debouncedSearchTerm country.nameOfficial ∨
    (∃ cap ∈ country.capital, ciOccurs crit.debouncedSearchTerm cap) ∨
    ciOccurs crit.debouncedSearchTerm country.region)

/-- C6: the filtering predicate of the view holds exactly when the
specification predicate does: region match is empty-or-exact-equality,
and search match is empty-after-trim or case insensitive substring
occurrence in common name, official name, any capital or region. -/
theorem countryMatches_spec (crit : FilterCriteria) (country : CountryBasic) :
    countryMatches crit country = true ↔ specCountryMatches crit country := by
  simp only [countryMatches, specCountryMatches, ciOccurs, Bool.and_eq_true,
    Bool.or_eq_true, beq_iff_eq, List.any_eq_true, jsIncludes_iff, or_assoc]

/-- C7: the view with the area sort key is exactly the view with the
population sort key for the same term, region and order: the area branch
of the comparator falls back to the population difference because the
basic record carries no area, and the filter does not read the sort
key. -/
theorem view_area_eq_population (nameCmp : String → String → Int)
    (countries : List CountryBasic) (term region : String) (ord : SortOrder) :
    filteredAndSortedCountries nameCmp countries
        { debouncedSearchTerm := term, selectedRegion := region,
          sortBy := SortKey.area, sortOrder := ord } =
      filteredAndSortedCountries nameCmp countries
        { debouncedSearchTerm := term, selectedRegion := region,
          sortBy := SortKey.population, sortOrder := ord } := by
  cases ord <;> rfl

/-! Remote data client (src/unnamed/part_007). -/

/-- Error codes carried by CountryAPIError. -/
inductive APICode where
  | httpError
  | fetchError
  | validationError
  | unknownError
  | invalidCode
  | countryNotFound
deriving DecidableEq

/-- Typed error thrown by the client (class CountryAPIError). -/
structure CountryAPIError where
  message : String
  status : Int
  code : APICode
deriving DecidableEq

/-- Read a string out of an optional JSON field. -/
def jsonString : Option Json → Option String
  | some (Json.str s) => some s
  | _ => none

/-- Read a number out of an optional JSON field. -/
def jsonNumber : Option Json → Option Int
  | some (Json.num n) => some n
  | _ => none

/-- Read a list of strings out of a JSON array. -/
def jsonStringList : List Json → Option (List String)
  | [] => some []
  | Json.str s :: rest => (jsonStringList rest).map (fun l => s :: l)
  | _ => none

/-- Model of safeParse of the zod countryBasicSchema
(src/src/lib/validation.ts lines 4-18): the record must be an object
with a name object holding common and official strings, cca2, cca3 and
region strings, a numeric population, a flags object whose png and svg
are url-valid strings, and an optional capital array of strings
defaulting to empty.  The url test of zod is an environment predicate
passed as isUrl; unknown keys are stripped, which the record type
reflects by omission. -/
def safeValidateCountryBasic (isUrl : String → Bool) (j : Json) : Option CountryBasic :=
  match j with
  | Json.obj _ => do
      let nameJ ← jsonGet j "name"
      let common ← jsonString (jsonGet nameJ "common")
      let official ← jsonString (jsonGet nameJ "official")
      let cca2 ← jsonString (jsonGet j "cca2")
      let cca3 ← jsonString (jsonGet j "cca3")
      let region ← jsonString (jsonGet j "region")
      let population ← jsonNumber (jsonGet j "population")
      let flagsJ ← jsonGet j "flags"
      let png ← jsonString (jsonGet flagsJ "png")
      let svg ← jsonString (jsonGet flagsJ "svg")
      if isUrl png && isUrl svg then
        match jsonGet j "capital" with
        | none =>
            some { cca2 := cca2, cca3 := cca3, nameCommon := common,
                   nameOfficial := official, flagsPng := png, flagsSvg := svg,
                   population := population, region := region, capital := [] }
        | some (Json.arr items) => do
            let capital ← jsonStringList items
            some { cca2 := cca2, cca3 := cca3, nameCommon := common,
                   nameOfficial := official, flagsPng := png, flagsSvg := svg,
                   population := population, region := region, capital := capital }
        | some _ => none
      else none
  | _ => none

/-- getAllCountries (src/unnamed/part_007 lines 61-103): on a fetch
error the typed error is rethrown; on a payload, every record is run
through the basic validator, failures are logged and dropped; if no
record passed, a VALIDATION_ERROR is thrown, else the kept subsequence
is returned. -/
def getAllCountries (validate : Json → Option CountryBasic)
    (fetched : Except CountryAPIError (List Json)) :
    Except CountryAPIError (List CountryBasic) :=
  match fetched with
  | Except.error e => Except.error e
  | Except.ok data =>
      let validated := data.filterMap validate
      if validated.length = 0 then
        Except.error { message := "No valid country data received", status := 0,
                       code := APICode.validationError }
      else Except.ok validated

/-- getCountriesByCodes (src/unnamed/part_007 lines 166-207): an empty
input returns empty without a request; codes are reduced to those whose
trim is nonempty and an all-blank list also returns empty; a fetch error
is caught and becomes the empty list (border enrichment is noncritical),
as does a non-array payload; otherwise each record failing detail
validation is dropped and the passing subsequence is returned.  The
detail validator (zod safeParse of countryDetailSchema) is passed as a
function. -/
def getCountriesByCodes {β : Type} (validate : Json → Option β) (codes : List String)
    (fetched : Except CountryAPIError Json) : List β :=
  if codes.isEmpty then []
  else
    let validCodes := codes.filter (fun c => 0 < (jsTrim c).length)
    if validCodes.isEmpty then []
    else
      match fetched with
      | Except.error _ => []
      | Except.ok (Json.arr data) => data.filterMap validate
      | Except.ok _ => []

/-- C8 (amended): getCountriesByCodes never raises (its result type is a
plain list; fetch errors and non-array payloads collapse to the empty
list) and, for a nonempty code list with at least one nonblank code and
an array payload, returns exactly the subsequence of records passing
validation; getAllCountries also returns exactly the passing
subsequence, but only provided at least one record passes: when every
record fails validation it raises a VALIDATION_ERROR instead of
returning the empty list, which is the correction to the claim. -/
theorem bulk_validation_drops (β : Type) (validate : Json → Option β)
    (isUrl : String → Bool) (codes : List String) (data : List Json)
    (hcodes : ¬ codes.isEmpty)
    (hblank : ¬ (codes.filter (fun c => 0 < (jsTrim c).length)).isEmpty)
    (hpass : data.filterMap (safeValidateCountryBasic isUrl) ≠ []) :
    getCountriesByCodes validate codes (Except.ok (Json.arr data)) =
      data.filterMap validate ∧
    getAllCountries (safeValidateCountryBasic isUrl) (Except.ok data) =
      Except.ok (data.filterMap (safeValidateCountryBasic isUrl)) := by
  constructor
  · unfold getCountriesByCodes
    rw [if_neg hcodes, if_neg hblank]
  · show (if (List.filterMap (safeValidateCountryBasic isUrl) data).length = 0 then
        (Except.error { message := "No valid country data received", status := 0,
                        code := APICode.validationError } :
          Except CountryAPIError (List CountryBasic))
      else Except.ok (List.filterMap (safeValidateCountryBasic isUrl) data)) = _
    rw [if_neg (by
      intro hlen
      exact hpass (List.length_eq_zero.mp hlen))]

/-- Sample raw record for France used in the client scenarios. -/
def frJson : Json :=
  Json.obj [("name", Json.obj [("common", Json.str "France"),
    ("official", Json.str "French Republic")]), ("cca2", Json.str "FR"),
    ("cca3", Json.str "FRA"), ("region", Json.str "Europe"),
    ("population", Json.num 67000000),
    ("flags", Json.obj [("png", Json.str "fr.png"), ("svg", Json.str "fr.svg")]),
    ("capital", Json.arr [Json.str "Paris"])]

/-- Validated record for France. -/
def frRecord : CountryBasic :=
  { cca2 := "FR", cca3 := "FRA", nameCommon := "France",
    nameOfficial := "French Republic", flagsPng := "fr.png", flagsSvg := "fr.svg",
    population := 67000000, region := "Europe", capital := ["Paris"] }

/-- C8 witness: one nonblank code and an array payload holding one valid
record and one null record; the by-codes endpoint keeps exactly the
records its validator passes and the all endpoint returns the validated
subsequence. -/
theorem bulk_validation_drops_witness :
    getCountriesByCodes (fun j => some j) ["fr"]
        (Except.ok (Json.arr [frJson, Json.null])) = [frJson, Json.null] ∧
    getAllCountries (safeValidateCountryBasic (fun _ => true))
        (Except.ok [frJson, Json.null]) = Except.ok [frRecord] :=
  bulk_validation_drops Json (fun j => some j) (fun _ => true) ["fr"]
    [frJson, Json.null] (by decide) (by decide) (by decide)

/-- C8 counterexample: a response whose only record fails validation
makes getAllCountries raise a VALIDATION_ERROR instead of returning the
empty subsequence, so the presence of invalid records can make the call
fail. -/
theorem getAllCountries_all_invalid_counterexample :
    getAllCountries (safeValidateCountryBasic (fun _ => true)) (Except.ok [Json.null]) =
      Except.error { message := "No valid country data received", status := 0,
                     code := APICode.validationError } := rfl

/-! Debounce hook (useDebounce in src/src/hooks/useLocalStorage.ts). -/

/-- Timeline semantics of useDebounce: the input is the sequence of
(time, value) changes of the hook argument, in time order.  Each change
runs the effect, which schedules setDebouncedValue(value) with
setTimeout at its time plus delay; when the next change arrives, the
cleanup of the previous effect runs clearTimeout on the pending timer.
A timer therefore fires exactly when its fire time does not lie after
the next change (or when no further change follows); the result is the
ordered list of (fire time, value) settles of the debounced output. -/
def debounceEmissions {α : Type} (delay : Nat) : List (Nat × α) → List (Nat × α)
  | [] => []
  | (t, v) :: rest =>
    match rest with
    | [] => [(t + delay, v)]
    | (t2, _) :: _ =>
        if t + delay ≤ t2 then (t + delay, v) :: debounceEmissions delay rest
        else debounceEmissions delay rest

/-- C9: when consecutive input changes arrive strictly less than delay
apart, each new change cancels the previously pending timer, so no
intermediate value is ever emitted: the debounced output settles exactly
once, at the time of the last change plus delay, to the final value. -/
theorem debounce_rapid_inputs {α : Type} (delay : Nat) (events : List (Nat × α))
    (t : Nat) (v : α)
    (hlast : events.getLast? = some (t, v))
    (hrapid : events.Chain' (fun a b => b.1 < a.1 + delay)) :
    debounceEmissions delay events = [(t + delay, v)] := by
  induction events with
  | nil => simp at hlast
  | cons x rest ih =>
      obtain ⟨t1, v1⟩ := x
      cases rest with
      | nil =>
          rw [List.getLast?_singleton] at hlast
          injection hlast with hx
          injection hx with h1 h2
          subst h1
          subst h2
          rfl
      | cons y rest2 =>
          obtain ⟨t2, v2⟩ := y
          have hlt : t2 < t1 + delay := (List.chain'_cons.mp hrapid).1
          have hrest : ((t2, v2) :: rest2).Chain' (fun a b => b.1 < a.1 + delay) :=
            (List.chain'_cons.mp hrapid).2
          have hlast2 : ((t2, v2) :: rest2).getLast? = some (t, v) := by
            rwa [List.getLast?_cons_cons] at hlast
          have hrec := ih hlast2 hrest
          show (if t1 + delay ≤ t2 then
              (t1 + delay, v1) :: debounceEmissions delay ((t2, v2) :: rest2)
            else debounceEmissions delay ((t2, v2) :: rest2)) = [(t + delay, v)]
          rw [if_neg (by omega)]
          exact hrec

/-- C9 witness: three keystrokes at 0, 100 and 150 milliseconds with a
300 millisecond delay settle exactly once, at 450, to the final text. -/
theorem debounce_rapid_inputs_witness :
    ([((0 : Nat), "u"), (100, "un"), (150, "uni")].getLast? = some (150, "uni")) ∧
    ([((0 : Nat), "u"), (100, "un"), (150, "uni")].Chain'
      (fun a b => b.1 < a.1 + 300)) ∧
    debounceEmissions 300 [((0 : Nat), "u"), (100, "un"), (150, "uni")] =
      [(450, "uni")] :=
  ⟨by decide, by simp [List.chain'_cons],
    debounce_rapid_inputs 300 [((0 : Nat), "u"), (100, "un"), (150, "uni")] 150 "uni"
      (by decide) (by simp [List.chain'_cons])⟩
